import Mathlib

/-!
Shallow embedding of the duty-status computation engine of the
truck-hos-logbook frontend:

* the per-day status totalizer (`totalsByStatus` in
  `src/frontend/src/components/LogbookSheet.tsx`, lines 206-269),
  including the sleeper-berth end-of-day override parsing
  (`sleeperBerthActiveForTotals`, `sbTimeHForTotals`);
* the duty-grid connector rule (`LogbookSheet.tsx`, lines 871-888);
* the recap window calculator (`getRecapForDay` in the logbook page);
* the mileage apportionment (`perDayMiles` in the logbook page).

Hours-since-midnight values are modelled as exact rationals (the
JavaScript code uses IEEE doubles; every claim's tolerance of 1e-6 is
subsumed by exact equality).  A time value that JavaScript would turn
into NaN is modelled as `Option.none`.  Segments are taken at the
hours-since-midnight level, i.e. after `isoToHoursSinceMidnight` has
been applied to the ISO strings of a `LogbookDay`.
-/

/-- The four duty statuses of `LogbookSheet.tsx` (`type DutyStatus`). -/
inductive DutyStatus where
  | OFF
  | SB
  | D
  | ON
deriving DecidableEq

/-- One duty segment of a day, with its start and end already converted to
hours since midnight (the result of `isoToHoursSinceMidnight` applied to
`start_iso` / `end_iso`). -/
structure Seg where
  status : DutyStatus
  startH : ℚ
  endH : ℚ
deriving DecidableEq

/-- The record of per-status hour totals (`totalsByStatus` in
`LogbookSheet.tsx`: `Record<DutyStatus, number>` initialised to zero). -/
structure Totals where
  OFF : ℚ
  SB : ℚ
  D : ℚ
  ON : ℚ
deriving DecidableEq

/-- Add `x` hours to the total of status `s`
(`totalsByStatus[seg.status] += ...`). -/
def addStatus (s : DutyStatus) (x : ℚ) (t : Totals) : Totals :=
  match s with
  | .OFF => { t with OFF := t.OFF + x }
  | .SB => { t with SB := t.SB + x }
  | .D => { t with D := t.D + x }
  | .ON => { t with ON := t.ON + x }

/-- `Math.max(0, Math.min(24, x))`: clamp an hour value into `[0, 24]`. -/
def clamp24 (x : ℚ) : ℚ := max 0 (min 24 x)

/-- Stable insertion of a segment into a list sorted by start hour; together
with `sortByStart` this models `segments.sort((a, b) => a.startH - b.startH)`
(a stable sort by start time). -/
def insertByStart (x : Seg) : List Seg → List Seg
  | [] => [x]
  | y :: ys => if x.startH < y.startH then x :: y :: ys else y :: insertByStart x ys

/-- Stable sort of segments by start hour, modelling
`[...log.segments].sort((a, b) => a.startH - b.startH)`. -/
def sortByStart : List Seg → List Seg
  | [] => []
  | x :: xs => insertByStart x (sortByStart xs)

/-- The effective (clamped, possibly truncated) end of a segment inside the
totals loop: `end = Math.max(0, Math.min(24, seg.endH))`, additionally
truncated at the sleeper-berth time when the override is active
(`end = Math.min(end, sbTimeHForTotals)`). -/
def segEnd (active : Bool) (sbT : ℚ) (seg : Seg) : ℚ :=
  if active = true then min (clamp24 seg.endH) sbT else clamp24 seg.endH

/-- One iteration of the totals loop in `LogbookSheet.tsx` lines 239-257.
The state is the totals record together with `prevEnd`.  The steps are,
in source order: clamp both endpoints into `[0, 24]`; when the override is
active, skip segments starting at or after the sleeper-berth time and
truncate the end at that time; skip degenerate segments (`end <= start`);
fill the gap before the segment with OFF; add the segment's duration to
its status; advance `prevEnd`. -/
def stepSeg (active : Bool) (sbT : ℚ) (st : Totals × ℚ) (seg : Seg) : Totals × ℚ :=
  if active = true ∧ sbT ≤ clamp24 seg.startH then st
  else if segEnd active sbT seg ≤ clamp24 seg.startH then st
  else
    (addStatus seg.status (segEnd active sbT seg - clamp24 seg.startH)
      (if st.2 < clamp24 seg.startH then addStatus .OFF (clamp24 seg.startH - st.2) st.1
       else st.1),
     max st.2 (segEnd active sbT seg))

/-- The totals loop over the sorted segments, starting from zero totals and
`prevEnd = 0`. -/
def runSegs (active : Bool) (sbT : ℚ) (segs : List Seg) : Totals × ℚ :=
  segs.foldl (stepSeg active sbT) (⟨0, 0, 0, 0⟩, 0)

/-- The per-status totals of one day (`totalsByStatus` in
`LogbookSheet.tsx` lines 206-269), given the already-parsed override
state: `active` is `sleeperBerthActiveForTotals` and `sbT` is the numeric
`sbTimeHForTotals`.  When the segment list is empty the guard
`if (log && log.segments.length)` skips the whole computation and the
totals stay at their zero initialisation.  After the loop, OFF filler is
added up to the sleeper-berth time (or 24:00) and SB filler from the
sleeper-berth time to 24:00. -/
def totalsByStatus (segs : List Seg) (active : Bool) (sbT : ℚ) : Totals :=
  if segs = [] then ⟨0, 0, 0, 0⟩
  else
    let st := runSegs active sbT (sortByStart segs)
    if active = true then
      let t1 := if st.2 < sbT then addStatus .OFF (sbT - st.2) st.1 else st.1
      if sbT < 24 then addStatus .SB (24 - sbT) t1 else t1
    else
      if st.2 < 24 then addStatus .OFF (24 - st.2) st.1 else st.1

/-- Sum of the four per-status totals (`totalHoursSum` in
`LogbookSheet.tsx` lines 271-272). -/
def sumTotals (t : Totals) : ℚ := t.OFF + t.SB + t.D + t.ON

/-- JavaScript `String.prototype.trim`: strip whitespace from both ends. -/
def jsTrim (s : String) : String :=
  String.mk (((s.toList.dropWhile Char.isWhitespace).reverse.dropWhile
    Char.isWhitespace).reverse)

/-- Helper for `splitOnColon`: walk the characters, cutting at each colon. -/
def splitColonAux : List Char → List Char → List String
  | [], acc => [String.mk acc.reverse]
  | c :: rest, acc =>
    if c = ':' then String.mk acc.reverse :: splitColonAux rest []
    else splitColonAux rest (c :: acc)

/-- JavaScript `t.split(':')`: e.g. `"20:00" ↦ ["20", "00"]`,
`"" ↦ [""]`, `"abc" ↦ ["abc"]`. -/
def splitOnColon (s : String) : List String :=
  splitColonAux s.toList []

/-- JavaScript `Number(s)` restricted to the strings a `"HH:MM"` time field
can contain: the empty (or all-whitespace) string converts to `0`, a string
of decimal digits converts to its value, anything else is NaN (`none`).
Signed or fractional numerals never occur in these fields. -/
def jsNum (s : String) : Option ℚ :=
  let t := (jsTrim s).toList
  if t.isEmpty then some 0
  else if t.all Char.isDigit then
    some ((t.foldl (fun n c => 10 * n + (c.toNat - '0'.toNat)) 0 : ℕ) : ℚ)
  else none

/-- The per-day operator inputs that feed the sleeper-berth override
(`LogbookFormData.ending_shift_location` and
`LogbookFormData.sleeper_berth_time`; optional string fields). -/
structure SleeperForm where
  ending_shift_location : Option String
  sleeper_berth_time : Option String

/-- `sleeperBerthActiveForTotals` (`LogbookSheet.tsx` lines 217-220):
the override is considered active only when `ending_shift_location` is
`'yes'` and `sleeper_berth_time` is a string whose trim is nonempty. -/
def sleeperBerthActiveForTotals (f : SleeperForm) : Bool :=
  if f.ending_shift_location.getD "no" = "yes" then
    match f.sleeper_berth_time with
    | some t => decide (jsTrim t ≠ "")
    | none => false
  else false

/-- Parse a trimmed, nonempty time string as the source does:
`const [h, m] = t.split(':').map(Number)` with each NaN component replaced
by `0`, then `Math.max(0, Math.min(24, hh + mm / 60))`.  When the split
yields a single part, `m` is `undefined` (which `Number.isNaN` does not
catch), so `hh + mm / 60` is NaN; this is modelled as `none`. -/
def parseSbTime (t : String) : Option ℚ :=
  match splitOnColon t with
  | h :: m :: _ => some (clamp24 ((jsNum h).getD 0 + (jsNum m).getD 0 / 60))
  | _ => none

/-- `sbTimeHForTotals` (`LogbookSheet.tsx` lines 221-228): `24` when the
override is inactive, otherwise the parsed and clamped time. -/
def sbTimeHForTotals (f : SleeperForm) : Option ℚ :=
  if sleeperBerthActiveForTotals f then
    parseSbTime (jsTrim (f.sleeper_berth_time.getD ""))
  else some 24

/-- The full per-day totals pipeline: parse the override from the form
fields, then run `totalsByStatus`.  `none` marks the NaN-poisoned case. -/
def totalsForDay (segs : List Seg) (f : SleeperForm) : Option Totals :=
  (sbTimeHForTotals f).map (totalsByStatus segs (sleeperBerthActiveForTotals f))

/-- The duty-overlay connector rule (`LogbookSheet.tsx` lines 871-888):
for a consecutive pair of segments in the day's segment list, a vertical
connector is drawn iff the change time matches the previous segment's end
within `1e-6` and the (clamped) change time lies strictly inside the day. -/
def connectorDrawn (prev seg : Seg) : Bool :=
  if |seg.startH - prev.endH| > 1 / 1000000 then false
  else
    let clamped := clamp24 seg.startH
    if clamped ≤ 0 ∨ clamped ≥ 24 then false
    else true

/-- The recap record (`RecapValues` in `LogbookSheet.tsx`). -/
structure RecapValues where
  onDutyToday : ℚ
  seventyA : ℚ
  seventyB : ℚ
  seventyC : ℚ
  sixtyA : ℚ
  sixtyB : ℚ
  sixtyC : ℚ
deriving DecidableEq

/-- The inner summation loop of `getRecapForDay`
(`for (let j = a; j <= b; j++) if (j >= 0 && j < n) s += hoursByDay[j]`),
unrolled on the iteration count: `jsSumFrom hs a k` sums the guarded
entries at indices `a, a+1, ..., a+k-1`. -/
def jsSumFrom (hs : List ℚ) : ℕ → ℕ → ℚ
  | _, 0 => 0
  | a, k + 1 => (if a < hs.length then hs.getD a 0 else 0) + jsSumFrom hs (a + 1) k

/-- `sum(a, b)` of `getRecapForDay`: the guarded sum over `j ∈ [a, b]`.
For a natural-number day index the lower bound `Math.max(0, i - c)` is
exactly truncated subtraction, so callers pass `i - c` directly. -/
def jsWindowSum (hs : List ℚ) (a b : ℕ) : ℚ := jsSumFrom hs a (b + 1 - a)

/-- `getRecapForDay(hoursByDay, dayIndex)` from the logbook page
(`src/unnamed/part_005` lines 378-402). -/
def getRecapForDay (hs : List ℚ) (dayIndex : ℕ) : RecapValues :=
  let seventyA := jsWindowSum hs (dayIndex - 6) dayIndex
  let sixtyA := jsWindowSum hs (dayIndex - 4) dayIndex
  { onDutyToday := hs.getD dayIndex 0
    seventyA := seventyA
    seventyB := max 0 (70 - seventyA)
    seventyC := jsWindowSum hs (dayIndex - 7) dayIndex
    sixtyA := sixtyA
    sixtyB := max 0 (60 - sixtyA)
    sixtyC := jsWindowSum hs (dayIndex - 6) dayIndex }

/-- The slice sum the specification describes: the sum of
`onDutyPerDay[lo .. hi]`, clipping at the ends of the list.  Taking the
first `hi + 1` entries makes "no use of days beyond `dayIndex`" explicit. -/
def specWindowSum (hs : List ℚ) (lo hi : ℕ) : ℚ := ((hs.take (hi + 1)).drop lo).sum

/-- Mileage apportionment (`perDayMiles` in `src/unnamed/part_005`
lines 473-487): day `i` gets `(driveHours i / totalDriveHours) * totalMiles`
when the trip has positive total driving hours, otherwise the full
`totalMiles`. -/
def apportionMiles (totalMiles : ℚ) (driveHours : List ℚ) : List ℚ :=
  driveHours.map fun h =>
    if 0 < driveHours.sum then h / driveHours.sum * totalMiles else totalMiles

/-- Decidable non-overlap check: consecutive segments in the list satisfy
`endH ≤ startH` of the next.  Used to state the amended partition claim. -/
def chainOk : List Seg → Bool
  | a :: b :: rest => decide (a.endH ≤ b.startH) && chainOk (b :: rest)
  | _ => true

/-- Componentwise comparison of totals records; every step of the totals
loop only ever increases each component. -/
def Totals.Le (a b : Totals) : Prop :=
  a.OFF ≤ b.OFF ∧ a.SB ≤ b.SB ∧ a.D ≤ b.D ∧ a.ON ≤ b.ON

/-! ### Helper lemmas -/

theorem clamp24_nonneg (x : ℚ) : 0 ≤ clamp24 x := le_max_left 0 _

theorem clamp24_le_24 (x : ℚ) : clamp24 x ≤ 24 :=
  max_le (by norm_num) (min_le_left _ _)

theorem clamp24_mono {a b : ℚ} (h : a ≤ b) : clamp24 a ≤ clamp24 b :=
  max_le_max le_rfl (min_le_min le_rfl h)

theorem sumTotals_addStatus (s : DutyStatus) (x : ℚ) (t : Totals) :
    sumTotals (addStatus s x t) = sumTotals t + x := by
  cases s <;> simp [addStatus, sumTotals] <;> ring

theorem segEnd_le_clampEnd (active : Bool) (sbT : ℚ) (seg : Seg) :
    segEnd active sbT seg ≤ clamp24 seg.endH := by
  rw [segEnd]; split
  · exact min_le_left _ _
  · exact le_rfl

theorem segEnd_le_sbT {active : Bool} (h : active = true) (sbT : ℚ) (seg : Seg) :
    segEnd active sbT seg ≤ sbT := by
  rw [segEnd, if_pos h]; exact min_le_right _ _

theorem stepSeg_skip1 {active : Bool} {sbT : ℚ} {seg : Seg} (st : Totals × ℚ)
    (h : active = true ∧ sbT ≤ clamp24 seg.startH) :
    stepSeg active sbT st seg = st := by
  rw [stepSeg, if_pos h]

theorem stepSeg_skip2 {active : Bool} {sbT : ℚ} {seg : Seg} (st : Totals × ℚ)
    (h1 : ¬(active = true ∧ sbT ≤ clamp24 seg.startH))
    (h2 : segEnd active sbT seg ≤ clamp24 seg.startH) :
    stepSeg active sbT st seg = st := by
  rw [stepSeg, if_neg h1, if_pos h2]

theorem stepSeg_keep {active : Bool} {sbT : ℚ} {seg : Seg} (st : Totals × ℚ)
    (h1 : ¬(active = true ∧ sbT ≤ clamp24 seg.startH))
    (h2 : ¬ segEnd active sbT seg ≤ clamp24 seg.startH) :
    stepSeg active sbT st seg =
      (addStatus seg.status (segEnd active sbT seg - clamp24 seg.startH)
        (if st.2 < clamp24 seg.startH then addStatus .OFF (clamp24 seg.startH - st.2) st.1
         else st.1),
       max st.2 (segEnd active sbT seg)) := by
  rw [stepSeg, if_neg h1, if_neg h2]

theorem mem_insertByStart {x a : Seg} : ∀ {l : List Seg},
    a ∈ insertByStart x l ↔ a = x ∨ a ∈ l := by
  intro l
  induction l with
  | nil => simp [insertByStart]
  | cons y ys ih =>
    rw [insertByStart]
    split
    · simp [List.mem_cons]
    · simp only [List.mem_cons, ih]
      tauto

theorem mem_sortByStart {a : Seg} : ∀ {l : List Seg}, a ∈ sortByStart l ↔ a ∈ l := by
  intro l
  induction l with
  | nil => simp [sortByStart]
  | cons x xs ih =>
    simp only [sortByStart, mem_insertByStart, ih, List.mem_cons]

theorem chainOk_tail {s : Seg} {l : List Seg} (h : chainOk (s :: l) = true) :
    chainOk l = true := by
  cases l with
  | nil => rfl
  | cons b r =>
    rw [chainOk, Bool.and_eq_true] at h
    exact h.2

theorem chainOk_head {s : Seg} {l : List Seg} (h : chainOk (s :: l) = true) :
    ∀ s₀, l.head? = some s₀ → s.endH ≤ s₀.startH := by
  intro s₀ h₀
  cases l with
  | nil => simp at h₀
  | cons b r =>
    rw [List.head?_cons, Option.some.injEq] at h₀
    rw [chainOk, Bool.and_eq_true] at h
    subst h₀
    exact of_decide_eq_true h.1

theorem runSegs_inv (active : Bool) (sbT : ℚ) (l : List Seg) :
    ∀ (t : Totals) (p : ℚ),
      sumTotals t = p → 0 ≤ p → p ≤ 24 → (active = true → p ≤ sbT) →
      (∀ s ∈ l, s.startH ≤ s.endH) →
      chainOk l = true →
      (∀ s₀, l.head? = some s₀ → p ≤ clamp24 s₀.startH) →
      sumTotals (l.foldl (stepSeg active sbT) (t, p)).1 =
          (l.foldl (stepSeg active sbT) (t, p)).2 ∧
        0 ≤ (l.foldl (stepSeg active sbT) (t, p)).2 ∧
        (l.foldl (stepSeg active sbT) (t, p)).2 ≤ 24 ∧
        (active = true → (l.foldl (stepSeg active sbT) (t, p)).2 ≤ sbT) := by
  induction l with
  | nil =>
    intro t p hsum h0 h24 hsb _ _ _
    exact ⟨hsum, h0, h24, hsb⟩
  | cons s l ih =>
    intro t p hsum h0 h24 hsb hwf hchain hhead
    have hps : p ≤ clamp24 s.startH := hhead s rfl
    have hwfs : s.startH ≤ s.endH := hwf s (List.mem_cons_self s l)
    have hwf' : ∀ x ∈ l, x.startH ≤ x.endH := fun x hx => hwf x (List.mem_cons_of_mem s hx)
    have hch' : chainOk l = true := chainOk_tail hchain
    have hse : clamp24 s.startH ≤ clamp24 s.endH := clamp24_mono hwfs
    have hnext : ∀ s₀, l.head? = some s₀ → clamp24 s.endH ≤ clamp24 s₀.startH :=
      fun s₀ h₀ => clamp24_mono (chainOk_head hchain s₀ h₀)
    rw [List.foldl_cons]
    by_cases h1 : active = true ∧ sbT ≤ clamp24 s.startH
    · rw [stepSeg_skip1 (t, p) h1]
      exact ih t p hsum h0 h24 hsb hwf' hch'
        (fun s₀ h₀ => hps.trans (hse.trans (hnext s₀ h₀)))
    · by_cases h2 : segEnd active sbT s ≤ clamp24 s.startH
      · rw [stepSeg_skip2 (t, p) h1 h2]
        exact ih t p hsum h0 h24 hsb hwf' hch'
          (fun s₀ h₀ => hps.trans (hse.trans (hnext s₀ h₀)))
      · rw [stepSeg_keep (t, p) h1 h2]
        push_neg at h2
        have hpe : p ≤ segEnd active sbT s := hps.trans h2.le
        have hsum' : sumTotals (addStatus s.status (segEnd active sbT s - clamp24 s.startH)
            (if p < clamp24 s.startH then addStatus .OFF (clamp24 s.startH - p) t else t)) =
            segEnd active sbT s := by
          by_cases hgap : p < clamp24 s.startH
          · rw [if_pos hgap, sumTotals_addStatus, sumTotals_addStatus, hsum]; ring
          · have hpeq : p = clamp24 s.startH := le_antisymm hps (not_lt.mp hgap)
            rw [if_neg hgap, sumTotals_addStatus, hsum, hpeq]; ring
        have h0' : 0 ≤ segEnd active sbT s := (clamp24_nonneg s.startH).trans h2.le
        have h24' : segEnd active sbT s ≤ 24 :=
          (segEnd_le_clampEnd active sbT s).trans (clamp24_le_24 _)
        have hsb' : active = true → segEnd active sbT s ≤ sbT :=
          fun ha => segEnd_le_sbT ha sbT s
        have hhead' : ∀ s₀, l.head? = some s₀ → segEnd active sbT s ≤ clamp24 s₀.startH :=
          fun s₀ h₀ => (segEnd_le_clampEnd active sbT s).trans (hnext s₀ h₀)
        rw [max_eq_right hpe]
        exact ih _ _ hsum' h0' h24' hsb' hwf' hch' hhead'

/-- C1 amended: for every day with a nonempty segment list whose segments
each satisfy `start ≤ end` and, after the stable sort by start time, do
not overlap (each segment's end is at most the next segment's start), and
for every override state with a clamped time in `[0, 24]`, the four
per-status totals sum to exactly 24 (so certainly within the 1e-6
tolerance).  Nonemptiness and non-overlap are forced by the
counterexamples: an empty day totalizes to 0 and overlapping segments
double-count. -/
theorem totalsByStatus_sum_eq (segs : List Seg) (active : Bool) (sbT : ℚ)
    (hne : segs ≠ []) (hsb0 : 0 ≤ sbT) (hsb1 : sbT ≤ 24)
    (hwf : ∀ s ∈ segs, s.startH ≤ s.endH)
    (hchain : chainOk (sortByStart segs) = true) :
    sumTotals (totalsByStatus segs active sbT) = 24 := by
  obtain ⟨hsum, h0, h24, hsb⟩ :=
    runSegs_inv active sbT (sortByStart segs) ⟨0, 0, 0, 0⟩ 0
      (by simp [sumTotals]) le_rfl (by norm_num) (fun _ => hsb0)
      (fun s hs => hwf s (mem_sortByStart.mp hs)) hchain
      (fun s₀ _ => clamp24_nonneg _)
  simp only [totalsByStatus, if_neg hne]
  set st := runSegs active sbT (sortByStart segs) with hst
  rw [runSegs] at hst
  rw [← hst] at hsum h0 h24 hsb
  by_cases ha : active = true
  · rw [if_pos ha]
    have hpsb : st.2 ≤ sbT := hsb ha
    by_cases hp : st.2 < sbT
    · rw [if_pos hp]
      by_cases hq : sbT < 24
      · rw [if_pos hq, sumTotals_addStatus, sumTotals_addStatus, hsum]; ring
      · have hq24 : sbT = 24 := le_antisymm hsb1 (not_lt.mp hq)
        rw [if_neg hq, sumTotals_addStatus, hsum, hq24]; ring
    · have hpeq : st.2 = sbT := le_antisymm hpsb (not_lt.mp hp)
      rw [if_neg hp]
      by_cases hq : sbT < 24
      · rw [if_pos hq, sumTotals_addStatus, hsum, hpeq]; ring
      · have hq24 : sbT = 24 := le_antisymm hsb1 (not_lt.mp hq)
        rw [if_neg hq, hsum, hpeq, hq24]
  · rw [if_neg ha]
    by_cases hp : st.2 < 24
    · rw [if_pos hp, sumTotals_addStatus, hsum]; ring
    · rw [if_neg hp, hsum]
      exact le_antisymm h24 (not_lt.mp hp)

theorem totalsLe_refl (t : Totals) : Totals.Le t t :=
  ⟨le_rfl, le_rfl, le_rfl, le_rfl⟩

theorem totalsLe_trans {a b c : Totals} (h1 : Totals.Le a b) (h2 : Totals.Le b c) :
    Totals.Le a c :=
  ⟨h1.1.trans h2.1, h1.2.1.trans h2.2.1, h1.2.2.1.trans h2.2.2.1, h1.2.2.2.trans h2.2.2.2⟩

theorem totalsLe_addStatus (s : DutyStatus) {x : ℚ} (hx : 0 ≤ x) (t : Totals) :
    Totals.Le t (addStatus s x t) := by
  cases s <;> refine ⟨?_, ?_, ?_, ?_⟩ <;> simp [addStatus] <;> linarith

theorem stepSeg_fst_le (active : Bool) (sbT : ℚ) (st : Totals × ℚ) (seg : Seg) :
    Totals.Le st.1 (stepSeg active sbT st seg).1 := by
  by_cases h1 : active = true ∧ sbT ≤ clamp24 seg.startH
  · rw [stepSeg_skip1 st h1]; exact totalsLe_refl _
  · by_cases h2 : segEnd active sbT seg ≤ clamp24 seg.startH
    · rw [stepSeg_skip2 st h1 h2]; exact totalsLe_refl _
    · rw [stepSeg_keep st h1 h2]
      push_neg at h2
      refine totalsLe_trans ?_
        (totalsLe_addStatus seg.status (by linarith [h2.le]) _)
      by_cases hgap : st.2 < clamp24 seg.startH
      · rw [if_pos hgap]
        exact totalsLe_addStatus .OFF (by linarith) _
      · rw [if_neg hgap]; exact totalsLe_refl _

theorem foldl_stepSeg_fst_le (active : Bool) (sbT : ℚ) :
    ∀ (l : List Seg) (st : Totals × ℚ),
      Totals.Le st.1 (l.foldl (stepSeg active sbT) st).1 := by
  intro l
  induction l with
  | nil => intro st; exact totalsLe_refl _
  | cons s l ih =>
    intro st
    rw [List.foldl_cons]
    exact totalsLe_trans (stepSeg_fst_le active sbT st s) (ih _)

theorem totalsByStatus_le (segs : List Seg) (active : Bool) (sbT : ℚ) :
    Totals.Le ⟨0, 0, 0, 0⟩ (totalsByStatus segs active sbT) := by
  simp only [totalsByStatus]
  by_cases hne : segs = []
  · rw [if_pos hne]; exact totalsLe_refl _
  · rw [if_neg hne]
    have hrun : Totals.Le ⟨0, 0, 0, 0⟩ (runSegs active sbT (sortByStart segs)).1 :=
      foldl_stepSeg_fst_le active sbT (sortByStart segs) (⟨0, 0, 0, 0⟩, 0)
    by_cases ha : active = true
    · rw [if_pos ha]
      have hmid : Totals.Le { OFF := 0, SB := 0, D := 0, ON := 0 }
          (if (runSegs active sbT (sortByStart segs)).2 < sbT then
            addStatus .OFF (sbT - (runSegs active sbT (sortByStart segs)).2)
              (runSegs active sbT (sortByStart segs)).1
          else (runSegs active sbT (sortByStart segs)).1) := by
        by_cases hp : (runSegs active sbT (sortByStart segs)).2 < sbT
        · rw [if_pos hp]
          exact totalsLe_trans hrun (totalsLe_addStatus .OFF (by linarith) _)
        · rw [if_neg hp]; exact hrun
      by_cases hq : sbT < 24
      · rw [if_pos hq]
        exact totalsLe_trans hmid (totalsLe_addStatus .SB (by linarith) _)
      · rw [if_neg hq]; exact hmid
    · rw [if_neg ha]
      refine totalsLe_trans hrun ?_
      by_cases hp : (runSegs active sbT (sortByStart segs)).2 < 24
      · rw [if_pos hp]; exact totalsLe_addStatus .OFF (by linarith) _
      · rw [if_neg hp]; exact totalsLe_refl _

theorem foldl_stepSeg_true_zero :
    ∀ (l : List Seg) (st : Totals × ℚ), l.foldl (stepSeg true 0) st = st := by
  intro l
  induction l with
  | nil => intro st; rfl
  | cons s l ih =>
    intro st
    rw [List.foldl_cons, stepSeg_skip1 st ⟨rfl, clamp24_nonneg _⟩]
    exact ih st

theorem totalsByStatus_true_zero (segs : List Seg) (h : segs ≠ []) :
    totalsByStatus segs true 0 = ⟨0, 24, 0, 0⟩ := by
  simp only [totalsByStatus, if_neg h, runSegs, foldl_stepSeg_true_zero]
  norm_num [addStatus]

theorem jsSumFrom_eq (hs : List ℚ) : ∀ (k a : ℕ),
    jsSumFrom hs a k = ((hs.drop a).take k).sum := by
  intro k
  induction k with
  | zero => intro a; simp [jsSumFrom]
  | succ k ih =>
    intro a
    rw [jsSumFrom]
    by_cases h : a < hs.length
    · rw [if_pos h]
      have hd : hs.drop a = hs[a] :: hs.drop (a + 1) :=
        (List.getElem_cons_drop hs a h).symm
      rw [hd, List.take_succ_cons, List.sum_cons, ih (a + 1),
        List.getD_eq_getElem hs 0 h]
    · rw [if_neg h]
      have hd : hs.drop a = [] := List.drop_eq_nil_of_le (not_lt.mp h)
      have hd2 : hs.drop (a + 1) = [] := List.drop_eq_nil_of_le (by omega)
      rw [hd, ih (a + 1), hd2]
      simp

theorem jsWindowSum_eq_spec (hs : List ℚ) (a b : ℕ) :
    jsWindowSum hs a b = specWindowSum hs a b := by
  rw [jsWindowSum, jsSumFrom_eq, specWindowSum, List.drop_take]

theorem getD_nonneg {hs : List ℚ} (h : ∀ x ∈ hs, 0 ≤ x) (n : ℕ) : 0 ≤ hs.getD n 0 := by
  by_cases hn : n < hs.length
  · rw [List.getD_eq_getElem hs 0 hn]
    exact h _ (List.getElem_mem hn)
  · rw [List.getD_eq_default hs 0 (not_lt.mp hn)]

theorem jsSumFrom_nonneg {hs : List ℚ} (h : ∀ x ∈ hs, 0 ≤ x) :
    ∀ (k a : ℕ), 0 ≤ jsSumFrom hs a k := by
  intro k
  induction k with
  | zero => intro a; rw [jsSumFrom]
  | succ k ih =>
    intro a
    rw [jsSumFrom]
    refine add_nonneg ?_ (ih (a + 1))
    by_cases hn : a < hs.length
    · rw [if_pos hn]; exact getD_nonneg h a
    · rw [if_neg hn]

theorem list_sum_map_mul (l : List ℚ) (c : ℚ) :
    (l.map fun x => x * c).sum = l.sum * c := by
  induction l with
  | nil => simp
  | cons x xs ih => simp [ih, add_mul]

/-! ### Claim theorems -/

/-- C10: for every input day and every parsed sleeper-berth override state,
each of the four per-status totals is at least zero: every accumulation
step of the totals loop (gap filler, segment duration, end-of-day filler)
adds a nonnegative duration. -/
theorem totalsByStatus_each_nonneg (segs : List Seg) (active : Bool) (sbT : ℚ) :
    0 ≤ (totalsByStatus segs active sbT).OFF ∧
      0 ≤ (totalsByStatus segs active sbT).SB ∧
      0 ≤ (totalsByStatus segs active sbT).D ∧
      0 ≤ (totalsByStatus segs active sbT).ON :=
  totalsByStatus_le segs active sbT

/-- C2: for every sequence of per-day on-duty hours and every in-range day
index, `getRecapForDay` returns exactly the clipped window sums of the
specification: `seventyA` over the last 7 days including today, `seventyC`
over the last 8, `sixtyA` over the last 5, `sixtyC` over the last 7 (all
clipping at index 0 and using no entry beyond the day index), the values
`seventyB = max 0 (70 - seventyA)` and `sixtyB = max 0 (60 - sixtyA)`, and
`onDutyToday` equal to the day's own entry. -/
theorem getRecapForDay_matches_spec (hs : List ℚ) (i : ℕ) (h : i < hs.length) :
    (getRecapForDay hs i).onDutyToday = hs.get ⟨i, h⟩ ∧
      (getRecapForDay hs i).seventyA = specWindowSum hs (i - 6) i ∧
      (getRecapForDay hs i).seventyC = specWindowSum hs (i - 7) i ∧
      (getRecapForDay hs i).sixtyA = specWindowSum hs (i - 4) i ∧
      (getRecapForDay hs i).sixtyC = specWindowSum hs (i - 6) i ∧
      (getRecapForDay hs i).seventyB = max 0 (70 - (getRecapForDay hs i).seventyA) ∧
      (getRecapForDay hs i).sixtyB = max 0 (60 - (getRecapForDay hs i).sixtyA) := by
  refine ⟨?_, ?_, ?_, ?_, ?_, ?_, ?_⟩ <;>
    simp [getRecapForDay, jsWindowSum_eq_spec, List.getD_eq_getElem hs 0 h,
      List.getElem?_eq_getElem h]

/-- Witness for C2 at the specification's recap scenario: eight days of
eight on-duty hours, day index 7. -/
theorem getRecapForDay_matches_spec_witness :
    (getRecapForDay [8, 8, 8, 8, 8, 8, 8, 8] 7).seventyA =
        specWindowSum [8, 8, 8, 8, 8, 8, 8, 8] 1 7 ∧
      (getRecapForDay [8, 8, 8, 8, 8, 8, 8, 8] 7).seventyC =
        specWindowSum [8, 8, 8, 8, 8, 8, 8, 8] 0 7 :=
  ⟨(getRecapForDay_matches_spec [8, 8, 8, 8, 8, 8, 8, 8] 7 (by decide)).2.1,
   (getRecapForDay_matches_spec [8, 8, 8, 8, 8, 8, 8, 8] 7 (by decide)).2.2.1⟩

/-- C9 as stated ("for any input sequence") is false: a negative entry in
`onDutyPerDay` propagates into `onDutyToday` unchanged. -/
theorem getRecapForDay_negative_cex :
    ¬ 0 ≤ (getRecapForDay [(-1 : ℚ)] 0).onDutyToday := by
  norm_num [getRecapForDay]

/-- C9 amended: when every entry of the on-duty list is nonnegative (as
holds for durations produced by the planner), all seven recap fields are
nonnegative for any day index. -/
theorem getRecapForDay_nonneg (hs : List ℚ) (i : ℕ) (h : ∀ x ∈ hs, 0 ≤ x) :
    0 ≤ (getRecapForDay hs i).onDutyToday ∧
      0 ≤ (getRecapForDay hs i).seventyA ∧
      0 ≤ (getRecapForDay hs i).seventyB ∧
      0 ≤ (getRecapForDay hs i).seventyC ∧
      0 ≤ (getRecapForDay hs i).sixtyA ∧
      0 ≤ (getRecapForDay hs i).sixtyB ∧
      0 ≤ (getRecapForDay hs i).sixtyC := by
  simp only [getRecapForDay, jsWindowSum]
  exact ⟨getD_nonneg h i, jsSumFrom_nonneg h _ _, le_max_left 0 _,
    jsSumFrom_nonneg h _ _, jsSumFrom_nonneg h _ _, le_max_left 0 _,
    jsSumFrom_nonneg h _ _⟩

/-- Witness for C9 (amended) on a one-day trip with eight on-duty hours. -/
theorem getRecapForDay_nonneg_witness :
    0 ≤ (getRecapForDay [(8 : ℚ)] 0).onDutyToday ∧
      0 ≤ (getRecapForDay [(8 : ℚ)] 0).seventyB :=
  ⟨(getRecapForDay_nonneg [8] 0
      (by intro x hx; rw [List.mem_singleton] at hx; subst hx; norm_num)).1,
   (getRecapForDay_nonneg [8] 0
      (by intro x hx; rw [List.mem_singleton] at hx; subst hx; norm_num)).2.2.1⟩

/-- C5: when total driving hours are positive, day `i` receives exactly
`totalMiles * hours_i / total`, and the apportioned values sum back to
exactly `totalMiles` (so certainly within the 1e-6 tolerance). -/
theorem apportionMiles_spec (M : ℚ) (hs : List ℚ) (h : 0 < hs.sum) :
    (∀ d, d < hs.length → (apportionMiles M hs).getD d 0 = M * hs.getD d 0 / hs.sum) ∧
      (apportionMiles M hs).sum = M := by
  have hfun : apportionMiles M hs = hs.map fun x => x * (M / hs.sum) := by
    simp only [apportionMiles, if_pos h, div_mul_eq_mul_div, mul_div_assoc]
  constructor
  · intro d hd
    rw [hfun]
    have hd2 : d < (hs.map fun x => x * (M / hs.sum)).length := by simpa using hd
    rw [List.getD_eq_getElem _ 0 hd2, List.getElem_map, ← List.getD_eq_getElem hs 0 hd]
    ring
  · rw [hfun, list_sum_map_mul, mul_comm, div_mul_cancel₀ _ (ne_of_gt h)]

/-- Witness for C5: a two-day trip with 1 and 3 driving hours conserves
the 100 total miles. -/
theorem apportionMiles_spec_witness : (apportionMiles 100 [1, 3]).sum = 100 :=
  (apportionMiles_spec 100 [1, 3] (by norm_num [List.sum_cons, List.sum_nil])).2

/-- C6: when the total driving hours are zero, every day receives the full
`totalMiles`; no division by zero is attempted and no error is raised. -/
theorem apportionMiles_zero_fallback (M : ℚ) (hs : List ℚ) (h : hs.sum = 0) :
    apportionMiles M hs = List.replicate hs.length M := by
  simp [apportionMiles, h, List.map_const']

/-- Witness for C6 on a two-day trip with no driving. -/
theorem apportionMiles_zero_fallback_witness : apportionMiles 50 [0, 0] = [50, 50] := by
  rw [apportionMiles_zero_fallback 50 [0, 0] (by norm_num [List.sum_cons, List.sum_nil])]
  rfl

/-- C8: a vertical connector between two consecutive segments is drawn
only when the previous segment's end time equals the next segment's start
time within 1e-6; when they differ by more than 1e-6 no connector is
drawn. -/
theorem connectorDrawn_only_on_match (prev seg : Seg) :
    (1 / 1000000 < |seg.startH - prev.endH| → connectorDrawn prev seg = false) ∧
      (connectorDrawn prev seg = true → |seg.startH - prev.endH| ≤ 1 / 1000000) := by
  constructor
  · intro h
    simp only [connectorDrawn]
    rw [if_pos h]
  · intro h
    by_contra hc
    push_neg at hc
    simp only [connectorDrawn] at h
    rw [if_pos hc] at h
    exact Bool.false_ne_true h

/-- Witness for C8: a 2-hour mismatch draws no connector, and a drawn
connector (matching times at 08:00) implies the times agree within 1e-6. -/
theorem connectorDrawn_only_on_match_witness :
    connectorDrawn ⟨.D, 0, 8⟩ ⟨.ON, 10, 12⟩ = false ∧
      |(⟨.ON, 8, 12⟩ : Seg).startH - (⟨.D, 0, 8⟩ : Seg).endH| ≤ 1 / 1000000 :=
  ⟨(connectorDrawn_only_on_match ⟨.D, 0, 8⟩ ⟨.ON, 10, 12⟩).1 (by norm_num),
   (connectorDrawn_only_on_match ⟨.D, 0, 8⟩ ⟨.ON, 8, 12⟩).2
     (by norm_num [connectorDrawn, clamp24, max_def, min_def])⟩

/-- C1 as stated (any segment list, possibly overlapping) is false:
two overlapping segments `D [0,10)` and `ON [5,15)` double-count the
overlap, giving totals `OFF = 9, D = 10, ON = 10` that sum to 29, far
outside the 1e-6 tolerance around 24. -/
theorem totalsByStatus_overlap_cex :
    ¬ |sumTotals (totalsByStatus [⟨.D, 0, 10⟩, ⟨.ON, 5, 15⟩] false 24) - 24| ≤
      1 / 1000000 := by
  have h : totalsByStatus [⟨.D, 0, 10⟩, ⟨.ON, 5, 15⟩] false 24 = ⟨9, 0, 10, 10⟩ := by
    norm_num [totalsByStatus, runSegs, sortByStart, insertByStart, stepSeg, segEnd,
      clamp24, addStatus, max_def, min_def]
    all_goals exact List.cons_ne_nil _ _
  rw [h]
  norm_num [sumTotals]

/-- Witness for C1 (amended) at the specification's scenario day
`ON[7,8) D[8,12) OFF[12,12.5) D[12.5,15)` with no override. -/
theorem totalsByStatus_sum_eq_witness :
    sumTotals (totalsByStatus
      [⟨.ON, 7, 8⟩, ⟨.D, 8, 12⟩, ⟨.OFF, 12, 25/2⟩, ⟨.D, 25/2, 15⟩] false 24) = 24 :=
  totalsByStatus_sum_eq _ false 24 (by simp) (by norm_num) (by norm_num)
    (by
      intro s hs
      simp only [List.mem_cons, List.not_mem_nil, or_false] at hs
      rcases hs with rfl | rfl | rfl | rfl <;> norm_num)
    (by norm_num [sortByStart, insertByStart, chainOk])

/-- C3 as stated is false: for an empty segment list the totalizer guard
`if (log && log.segments.length)` skips the computation, so the OFF total
is 0.0 rather than 24.0. -/
theorem totalsByStatus_empty_cex :
    (totalsByStatus [] false 24).OFF = 0 ∧ (totalsByStatus [] false 24).OFF ≠ 24 := by
  constructor <;> norm_num [totalsByStatus]

/-- C3 amended: a day with an empty segment list yields all four totals
equal to 0.0 (the guard skips the computation; there is no all-OFF
24-hour filler), and no error is raised. -/
theorem totalsByStatus_empty (active : Bool) (sbT : ℚ) :
    totalsByStatus [] active sbT = ⟨0, 0, 0, 0⟩ := rfl

/-- C4: a day with the single segment `D [07:00, 15:00)` and an active
sleeper-berth override at `"20:00"` totalizes to
`OFF = 12, SB = 4, D = 8, ON = 0`, i.e. the partition
`OFF[0,7) D[7,15) OFF[15,20) SB[20,24)`. -/
theorem totalsForDay_sleeper_truncation :
    totalsForDay [⟨.D, 7, 15⟩] ⟨some "yes", some "20:00"⟩ = some ⟨12, 4, 8, 0⟩ := by
  have ha : sleeperBerthActiveForTotals ⟨some "yes", some "20:00"⟩ = true := by decide
  have hsb : sbTimeHForTotals ⟨some "yes", some "20:00"⟩ = some 20 := by
    have h2 : splitOnColon (jsTrim "20:00") = ["20", "00"] := by decide
    have h3 : jsNum "20" = some 20 := by decide
    have h4 : jsNum "00" = some 0 := by decide
    rw [sbTimeHForTotals, if_pos ha, parseSbTime]
    simp only [Option.getD_some, h2, h3, h4]
    norm_num [clamp24]
  rw [totalsForDay, hsb, ha]
  simp only [Option.map_some']
  congr 1
  norm_num [totalsByStatus, runSegs, sortByStart, insertByStart, stepSeg, segEnd,
    clamp24, addStatus, max_def, min_def]

/-- C7 as stated is false: an active override whose time field is absent
is treated as an inactive override (code requires a nonempty time string
for the override to apply), not as an override at 00:00 that would turn
the whole day into SB. -/
theorem totalsForDay_absent_time_cex :
    totalsForDay [⟨.D, 7, 15⟩] ⟨some "yes", none⟩ ≠
      some (totalsByStatus [⟨.D, 7, 15⟩] true 0) := by
  have hact : sleeperBerthActiveForTotals ⟨some "yes", none⟩ = false := by decide
  have h1 : totalsForDay [⟨.D, 7, 15⟩] ⟨some "yes", none⟩ =
      some (totalsByStatus [⟨.D, 7, 15⟩] false 24) := by
    rw [totalsForDay, sbTimeHForTotals, hact]
    simp
  have h2 : totalsByStatus [⟨.D, 7, 15⟩] false 24 = ⟨16, 0, 8, 0⟩ := by
    norm_num [totalsByStatus, runSegs, sortByStart, insertByStart, stepSeg, segEnd,
      clamp24, addStatus, max_def, min_def]
  have h3 : totalsByStatus [⟨.D, 7, 15⟩] true 0 = ⟨0, 24, 0, 0⟩ :=
    totalsByStatus_true_zero _ (by simp)
  rw [h1, h2, h3]
  simp only [ne_eq, Option.some.injEq, Totals.mk.injEq]
  norm_num

/-- C7 amended: an active override whose time field is absent or trims to
the empty string is treated as inactive (no sleeper-berth truncation); a
nonempty, colon-separated but numerically unparsable time is treated as
00:00 (so any nonempty day becomes entirely SB); a nonempty time without
a colon makes the time NaN (modelled as `none`). -/
theorem totalsForDay_time_parsing (segs : List Seg) :
    totalsForDay segs ⟨some "yes", none⟩ = some (totalsByStatus segs false 24) ∧
      totalsForDay segs ⟨some "yes", some "   "⟩ = some (totalsByStatus segs false 24) ∧
      totalsForDay segs ⟨some "yes", some "xx:yy"⟩ = some (totalsByStatus segs true 0) ∧
      totalsForDay segs ⟨some "yes", some "2000"⟩ = none ∧
      (segs ≠ [] → totalsByStatus segs true 0 = ⟨0, 24, 0, 0⟩) := by
  refine ⟨?_, ?_, ?_, ?_, totalsByStatus_true_zero segs⟩
  · have hact : sleeperBerthActiveForTotals ⟨some "yes", none⟩ = false := by decide
    rw [totalsForDay, sbTimeHForTotals, hact]
    simp
  · have hact : sleeperBerthActiveForTotals ⟨some "yes", some "   "⟩ = false := by decide
    rw [totalsForDay, sbTimeHForTotals, hact]
    simp
  · have hact : sleeperBerthActiveForTotals ⟨some "yes", some "xx:yy"⟩ = true := by decide
    have hsb : sbTimeHForTotals ⟨some "yes", some "xx:yy"⟩ = some 0 := by
      have h2 : splitOnColon (jsTrim "xx:yy") = ["xx", "yy"] := by decide
      have h3 : jsNum "xx" = none := by decide
      have h4 : jsNum "yy" = none := by decide
      rw [sbTimeHForTotals, if_pos hact, parseSbTime]
      simp only [Option.getD_some, h2, h3, h4, Option.getD_none]
      norm_num [clamp24]
    rw [totalsForDay, hsb, hact]
    simp
  · have hact : sleeperBerthActiveForTotals ⟨some "yes", some "2000"⟩ = true := by decide
    have hsb : sbTimeHForTotals ⟨some "yes", some "2000"⟩ = none := by
      have h2 : splitOnColon (jsTrim "2000") = ["2000"] := by decide
      rw [sbTimeHForTotals, if_pos hact, parseSbTime]
      simp only [Option.getD_some, h2]
    rw [totalsForDay, hsb]
    rfl

/-- Witness for C7 (amended): the unparsable-with-colon case turns the
example day entirely into SB. -/
theorem totalsForDay_time_parsing_witness :
    totalsByStatus [⟨.D, 7, 15⟩] true 0 = ⟨0, 24, 0, 0⟩ :=
  (totalsForDay_time_parsing [⟨.D, 7, 15⟩]).2.2.2.2 (by simp)
